import Mathlib

/-!
Verification of the TP_Mapping geometry pipeline.

The two Python sources (mapping_visualizer.py, mapping_matplotlib.py) are
shallowly embedded below.  Numeric values (Python floats) are modelled as
rationals, so every arithmetic identity proved here is exact; Python dicts
are modelled as association lists with insert-in-place semantics (insertion
order preserved, overwrite keeps the original position), which matches the
observable iteration and lookup behaviour of Python dicts.
-/

set_option synthInstance.maxSize 1024

namespace TPMapping

/-- Placement configuration, the user-adjustable parameters read by
process_data (design_scale, offset_scale, shot_separation). -/
structure Config where
  designScale : ℚ
  offsetScale : ℚ
  shotSeparation : ℚ
deriving DecidableEq

/-- Python int() applied to a rational: truncation toward zero. -/
def truncQ (q : ℚ) : ℤ :=
  if 0 ≤ q then ⌊q⌋ else ⌈q⌉

/-- The placement computation of process_data (mapping_visualizer.py lines
255-272 and its two verbatim copies, mapping_matplotlib.py lines 407-424):
scaled = int(coord / (design_scale * 1000)), then the shot-separation shift,
with the branches in the source order (shot 2, 3, 4, 1, otherwise none). -/
def placePoint (cfg : Config) (shot : ℤ) (x y : ℚ) : ℚ × ℚ :=
  let sx : ℚ := (truncQ (x / (cfg.designScale * 1000)) : ℤ)
  let sy : ℚ := (truncQ (y / (cfg.designScale * 1000)) : ℤ)
  if shot = 2 then (sx + cfg.shotSeparation, sy - cfg.shotSeparation)
  else if shot = 3 then (sx - cfg.shotSeparation, sy - cfg.shotSeparation)
  else if shot = 4 then (sx - cfg.shotSeparation, sy + cfg.shotSeparation)
  else if shot = 1 then (sx + cfg.shotSeparation, sy + cfg.shotSeparation)
  else (sx, sy)

/-- Modelled from the spec's words (placement pseudocode in section 4.2 and
claim C1): scaled = floor(coord / (design_scale * 1000)), switch written in
the spec's order (shot 1, 2, 3, 4, default).  For comparison with the code's
placePoint. -/
def placePointSpecFloor (cfg : Config) (shot : ℤ) (x y : ℚ) : ℚ × ℚ :=
  let sx : ℚ := (⌊x / (cfg.designScale * 1000)⌋ : ℤ)
  let sy : ℚ := (⌊y / (cfg.designScale * 1000)⌋ : ℤ)
  if shot = 1 then (sx + cfg.shotSeparation, sy + cfg.shotSeparation)
  else if shot = 2 then (sx + cfg.shotSeparation, sy - cfg.shotSeparation)
  else if shot = 3 then (sx - cfg.shotSeparation, sy - cfg.shotSeparation)
  else if shot = 4 then (sx - cfg.shotSeparation, sy + cfg.shotSeparation)
  else (sx, sy)

/-- The spec's placement pseudocode with floor replaced by truncation toward
zero (the amendment forced by the counterexample below); switch still in the
spec's order. -/
def placePointSpecTrunc (cfg : Config) (shot : ℤ) (x y : ℚ) : ℚ × ℚ :=
  let sx : ℚ := (truncQ (x / (cfg.designScale * 1000)) : ℤ)
  let sy : ℚ := (truncQ (y / (cfg.designScale * 1000)) : ℤ)
  if shot = 1 then (sx + cfg.shotSeparation, sy + cfg.shotSeparation)
  else if shot = 2 then (sx + cfg.shotSeparation, sy - cfg.shotSeparation)
  else if shot = 3 then (sx - cfg.shotSeparation, sy - cfg.shotSeparation)
  else if shot = 4 then (sx - cfg.shotSeparation, sy + cfg.shotSeparation)
  else (sx, sy)

end TPMapping

namespace TPMapping

/-- Claim C1 (counterexample): with design_scale = 1, shot_separation = 0,
shot 1, the raw coordinate x = -500 is placed at int(-500/1000) = 0, not at
floor(-500/1000) = -1: Python int() truncates toward zero, so the claim's
floor reading fails on negative coordinates. -/
theorem placePoint_floor_counterexample :
    placePoint ⟨1, 1, 0⟩ 1 (-500) 0 ≠ placePointSpecFloor ⟨1, 1, 0⟩ 1 (-500) 0 := by
  simp only [placePoint, placePointSpecFloor, truncQ]
  norm_num [Prod.ext_iff, show ⌈-(1/2 : ℚ)⌉ = 0 from by norm_num]

/-- Claim C1 (amended): for every configuration, shot and raw coordinates
(negative included), the placed theoretical coordinate is truncation toward
zero of coord / (design_scale * 1000) on each axis, then shifted by the
shot-separation according to the quadrant (shot 1: +x,+y; 2: +x,-y;
3: -x,-y; 4: -x,+y; any other shot: no shift) -- that is, the code's
placement agrees everywhere with the spec's placement pseudocode once
floor is read as truncation toward zero. -/
theorem placePoint_eq_spec_trunc (cfg : Config) (shot : ℤ) (x y : ℚ) :
    placePoint cfg shot x y = placePointSpecTrunc cfg shot x y := by
  unfold placePoint placePointSpecTrunc
  split_ifs <;> first | rfl | omega

end TPMapping

namespace TPMapping

/-- First-match lookup in an association list (Python dict lookup). -/
def alGet {K V : Type} [DecidableEq K] : List (K × V) → K → Option V
  | [], _ => none
  | (k', v) :: rest, k => if k' = k then some v else alGet rest k

/-- Python dict assignment: overwrite in place when the key is present,
append at the end otherwise (insertion order preserved, as in Python). -/
def alInsert {K V : Type} [DecidableEq K] : List (K × V) → K → V → List (K × V)
  | [], k, v => [(k, v)]
  | (k', v') :: rest, k, v =>
    if k' = k then (k', v) :: rest else (k', v') :: alInsert rest k v

theorem alGet_alInsert_same {K V : Type} [DecidableEq K]
    (l : List (K × V)) (k : K) (v : V) : alGet (alInsert l k v) k = some v := by
  induction l with
  | nil => simp [alInsert, alGet]
  | cons e rest ih =>
    by_cases h : e.1 = k
    · simp [alInsert, alGet, h]
    · simp [alInsert, alGet, h, ih]

theorem alGet_alInsert_ne {K V : Type} [DecidableEq K]
    (l : List (K × V)) (k k' : K) (v : V) (h : k' ≠ k) :
    alGet (alInsert l k v) k' = alGet l k' := by
  induction l with
  | nil => simp [alInsert, alGet, h.symm]
  | cons e rest ih =>
    by_cases he : e.1 = k
    · subst he
      simp [alInsert, alGet, h.symm]
    · simp only [alInsert, alGet, he, if_false]
      by_cases he' : e.1 = k' <;> simp [alGet, he', ih]

/-- Insert a value into an ascending list of integers. -/
def insertAsc (x : ℤ) : List ℤ → List ℤ
  | [] => [x]
  | y :: ys => if x ≤ y then x :: y :: ys else y :: insertAsc x ys

/-- Insertion sort on integers: the model of Python sorted() applied to the
seq keys of a polygon dict. -/
def sortInts : List ℤ → List ℤ
  | [] => []
  | x :: xs => insertAsc x (sortInts xs)

/-- The list comprehension of redraw_plot and update_polygons:
[points[seq] for seq in sorted(points.keys())]. -/
def sortedPolyPoints (points : List (ℤ × (ℚ × ℚ))) : List (ℚ × ℚ) :=
  (sortInts (points.map Prod.fst)).filterMap (alGet points)

/-- closed_points = sorted_points + [sorted_points[0]]. -/
def closeRing : List (ℚ × ℚ) → List (ℚ × ℚ)
  | [] => []
  | p :: ps => (p :: ps) ++ [p]

/-- The theory/mean polygon drawing step of MatplotlibCanvas.redraw_plot
(mapping_visualizer.py lines 572-580 and 618-625): the closed ring is
produced only when there are at least two seq-sorted points. -/
def redrawPolygonLine (points : List (ℤ × (ℚ × ℚ))) : Option (List (ℚ × ℚ)) :=
  if 2 ≤ (sortedPolyPoints points).length then
    some (closeRing (sortedPolyPoints points))
  else none

/-- The polygon conversion of MatplotlibCanvas.update_polygons
(mapping_matplotlib.py lines 86-112): every nonempty seq-sorted point list
is closed by appending its first point; only an empty list is dropped. -/
def updatePolygonsRing (points : List (ℤ × (ℚ × ℚ))) : Option (List (ℚ × ℚ)) :=
  if sortedPolyPoints points = [] then none
  else some (closeRing (sortedPolyPoints points))

theorem closeRing_head?_eq_getLast? (sp : List (ℚ × ℚ)) :
    (closeRing sp).head? = (closeRing sp).getLast? := by
  cases sp with
  | nil => rfl
  | cons p ps =>
    show ((p :: ps) ++ [p]).head? = ((p :: ps) ++ [p]).getLast?
    rw [List.getLast?_concat]
    rfl

theorem closeRing_length_of_ne_nil (sp : List (ℚ × ℚ)) (h : sp ≠ []) :
    (closeRing sp).length = sp.length + 1 := by
  cases sp with
  | nil => exact absurd rfl h
  | cons p ps => simp [closeRing]

end TPMapping

namespace TPMapping

/-- Claim C2 (counterexample): in mapping_matplotlib.py, update_polygons
closes every nonempty point list, so a placement group with a single point
produces the degenerate closed polygon [p, p] of total length 2 -- the
claim's "length >= 3, and fewer than 2 points yields no polygon at all"
fails on that variant. -/
theorem update_polygons_single_point_counterexample :
    updatePolygonsRing [(1, ((0 : ℚ), (0 : ℚ)))] = some [(0, 0), (0, 0)] ∧
    ([((0 : ℚ), (0 : ℚ)), (0, 0)] : List (ℚ × ℚ)).length = 2 := by
  constructor
  · simp [updatePolygonsRing, sortedPolyPoints, sortInts, insertAsc, alGet, closeRing]
  · rfl

/-- Claim C2 (amended): in mapping_visualizer.py (redraw_plot), every drawn
polygon is the seq-sorted point list with the first point appended again, so
its first and last points coincide and its total length is at least 3, and a
group with fewer than 2 points yields no polygon; in mapping_matplotlib.py
(update_polygons) the closing and first=last still hold, but every nonempty
group is closed, so a single-point group yields a degenerate ring of
length 2 instead of being dropped. -/
theorem polygon_closed_ring (points : List (ℤ × (ℚ × ℚ))) (L : List (ℚ × ℚ)) :
    (redrawPolygonLine points = some L →
      L = closeRing (sortedPolyPoints points) ∧
      L.head? = L.getLast? ∧ 3 ≤ L.length) ∧
    ((sortedPolyPoints points).length ≤ 1 → redrawPolygonLine points = none) ∧
    (updatePolygonsRing points = some L →
      L = closeRing (sortedPolyPoints points) ∧
      L.head? = L.getLast? ∧ 2 ≤ L.length) := by
  refine ⟨?_, ?_, ?_⟩
  · intro h
    unfold redrawPolygonLine at h
    by_cases hl : 2 ≤ (sortedPolyPoints points).length
    · rw [if_pos hl] at h
      obtain rfl : closeRing (sortedPolyPoints points) = L := by simpa using h
      have hne : sortedPolyPoints points ≠ [] := by
        intro h0
        rw [h0] at hl
        simp at hl
      refine ⟨rfl, closeRing_head?_eq_getLast? _, ?_⟩
      rw [closeRing_length_of_ne_nil _ hne]
      omega
    · rw [if_neg hl] at h
      exact absurd h (by simp)
  · intro h
    unfold redrawPolygonLine
    rw [if_neg (by omega : ¬ 2 ≤ (sortedPolyPoints points).length)]
  · intro h
    unfold updatePolygonsRing at h
    by_cases hl : sortedPolyPoints points = []
    · rw [if_pos hl] at h
      exact absurd h (by simp)
    · rw [if_neg hl] at h
      obtain rfl : closeRing (sortedPolyPoints points) = L := by simpa using h
      refine ⟨rfl, closeRing_head?_eq_getLast? _, ?_⟩
      have h1 : 0 < (sortedPolyPoints points).length := List.length_pos.mpr hl
      rw [closeRing_length_of_ne_nil _ hl]
      omega

/-- Witness for the amended claim C2 at a concrete two-point group. -/
theorem polygon_closed_ring_witness :
    ([((0 : ℚ), (0 : ℚ)), (1, 1), (0, 0)] : List (ℚ × ℚ)) =
      closeRing (sortedPolyPoints [(1, ((0 : ℚ), (0 : ℚ))), (2, (1, 1))]) ∧
    ([((0 : ℚ), (0 : ℚ)), (1, 1), (0, 0)] : List (ℚ × ℚ)).head? =
      ([((0 : ℚ), (0 : ℚ)), (1, 1), (0, 0)] : List (ℚ × ℚ)).getLast? ∧
    3 ≤ ([((0 : ℚ), (0 : ℚ)), (1, 1), (0, 0)] : List (ℚ × ℚ)).length :=
  (polygon_closed_ring [(1, (0, 0)), (2, (1, 1))] [(0, 0), (1, 1), (0, 0)]).1
    (by simp [redrawPolygonLine, sortedPolyPoints, sortInts, insertAsc, alGet, closeRing])

end TPMapping

namespace TPMapping

/-- Nested dict lookup d[k1][k2] (None when either key is absent). -/
def alGet2 {K1 K2 V : Type} [DecidableEq K1] [DecidableEq K2]
    (m : List (K1 × List (K2 × V))) (k1 : K1) (k2 : K2) : Option V :=
  match alGet m k1 with
  | none => none
  | some d => alGet d k2

/-- Nested dict assignment: if k1 not in d: d[k1] = \x7b\x7d; d[k1][k2] = v
(the idiom used throughout process_data). -/
def alInsert2 {K1 K2 V : Type} [DecidableEq K1] [DecidableEq K2]
    (m : List (K1 × List (K2 × V))) (k1 : K1) (k2 : K2) (v : V) :
    List (K1 × List (K2 × V)) :=
  alInsert m k1 (alInsert ((alGet m k1).getD []) k2 v)

theorem alGet2_alInsert2_same {K1 K2 V : Type} [DecidableEq K1] [DecidableEq K2]
    (m : List (K1 × List (K2 × V))) (k1 : K1) (k2 : K2) (v : V) :
    alGet2 (alInsert2 m k1 k2 v) k1 k2 = some v := by
  unfold alGet2 alInsert2
  rw [alGet_alInsert_same]
  exact alGet_alInsert_same _ _ _

theorem alGet2_alInsert2_ne {K1 K2 V : Type} [DecidableEq K1] [DecidableEq K2]
    (m : List (K1 × List (K2 × V))) (k1 k1' : K1) (k2 k2' : K2) (v : V)
    (h : (k1', k2') ≠ (k1, k2)) :
    alGet2 (alInsert2 m k1' k2' v) k1 k2 = alGet2 m k1 k2 := by
  by_cases h1 : k1 = k1'
  · subst h1
    have h2 : k2 ≠ k2' := by
      intro h2
      exact h (by rw [h2])
    unfold alGet2 alInsert2
    rw [alGet_alInsert_same]
    cases hm : alGet m k1 with
    | none => simp [alGet, alInsert, Ne.symm h2]
    | some d => exact alGet_alInsert_ne d k2' k2 v h2
  · unfold alGet2 alInsert2
    rw [alGet_alInsert_ne _ _ _ _ h1]

/-- One already-parsed measurement row.  Fields that process_data reads
through int()/float() are Options: none models a value whose parse raises
ValueError (the per-row try/except path) or, for the two parameter fields,
a missing/NaN value (the pd.isna check). -/
structure Row where
  glassId : String
  endTime : String
  siteName : Option ℤ
  x : Option ℚ
  y : Option ℚ
  paramName : Option String
  paramValue : Option ℚ
deriving DecidableEq

/-- A parsed clipboard dataset: its column names and its rows. -/
structure DataFrame where
  columns : List String
  rows : List Row
deriving DecidableEq

/-- One iteration of the theory pass of process_data (mapping_visualizer.py
lines 239-281): parse SITE_NAME, X, Y (failure skips the row), record the
site's raw coordinates, and if the site resolves in seq_data, place the
point into polygons[shot][seq]. -/
def theoryStep (seqData : ℤ → Option (ℤ × ℤ)) (cfg : Config)
    (acc : List (ℤ × (ℚ × ℚ)) × List (ℤ × List (ℤ × (ℚ × ℚ)))) (r : Row) :
    List (ℤ × (ℚ × ℚ)) × List (ℤ × List (ℤ × (ℚ × ℚ))) :=
  match r.siteName, r.x, r.y with
  | some site, some x, some y =>
    let coords := alInsert acc.1 site (x, y)
    match seqData site with
    | none => (coords, acc.2)
    | some (shot, seq) => (coords, alInsert2 acc.2 shot seq (placePoint cfg shot x y))
  | _, _, _ => acc

/-- The theory pass: site_theory_coords and the theory polygons. -/
def theoryPass (seqData : ℤ → Option (ℤ × ℤ)) (cfg : Config) (rows : List Row) :
    List (ℤ × (ℚ × ℚ)) × List (ℤ × List (ℤ × (ℚ × ℚ))) :=
  rows.foldl (theoryStep seqData cfg) ([], [])

/-- One iteration of the offset pass (mapping_visualizer.py lines 284-318):
rows whose PARAM_NAME/PARAM_VALUE are missing are skipped, only POS_X1 and
POS_Y1 are kept, stored as offset_data[glass_id_endtime][site][param]. -/
def offsetStep (acc : List (String × List (ℤ × List (String × ℚ)))) (r : Row) :
    List (String × List (ℤ × List (String × ℚ))) :=
  match r.paramName, r.paramValue, r.siteName with
  | some pname, some pval, some site =>
    if pname = "POS_X1" ∨ pname = "POS_Y1" then
      let key := r.glassId ++ "_" ++ r.endTime
      let keyDict := (alGet acc key).getD []
      let siteDict := (alGet keyDict site).getD []
      alInsert acc key (alInsert keyDict site (alInsert siteDict pname pval))
    else acc
  | _, _, _ => acc

/-- The offset pass over all rows. -/
def offsetPass (rows : List Row) : List (String × List (ℤ × List (String × ℚ))) :=
  rows.foldl offsetStep []

/-- The per-site scaled offset used by the actual pass:
(params.get('POS_X1', 0) / offset_scale, params.get('POS_Y1', 0) / offset_scale). -/
def scaledOffset (cfg : Config) (params : List (String × ℚ)) : ℚ × ℚ :=
  (((alGet params "POS_X1").getD 0) / cfg.offsetScale,
   ((alGet params "POS_Y1").getD 0) / cfg.offsetScale)

/-- One site of one unit in the actual pass (mapping_visualizer.py lines
327-372): skip unless the site resolves in seq_data and has theory
coordinates; otherwise append the scaled offset to all_offsets[site] and
store theory placement + offset into the unit's polygon dict. -/
def actualSiteStep (seqData : ℤ → Option (ℤ × ℤ)) (cfg : Config)
    (tc : List (ℤ × (ℚ × ℚ)))
    (acc : List (ℤ × List (ℤ × (ℚ × ℚ))) × List (ℤ × List (ℚ × ℚ)))
    (sp : ℤ × List (String × ℚ)) :
    List (ℤ × List (ℤ × (ℚ × ℚ))) × List (ℤ × List (ℚ × ℚ)) :=
  match seqData sp.1 with
  | none => acc
  | some (shot, seq) =>
    match alGet tc sp.1 with
    | none => acc
    | some (x, y) =>
      let off := scaledOffset cfg sp.2
      let p := placePoint cfg shot x y
      (alInsert2 acc.1 shot seq (p.1 + off.1, p.2 + off.2),
       alInsert acc.2 sp.1 (((alGet acc.2 sp.1).getD []) ++ [off]))

/-- One unit of the actual pass: its polygon dict is built from an empty
dict (actual_polygons[glass_key] = \x7b\x7d), threading all_offsets through. -/
def actualUnit (seqData : ℤ → Option (ℤ × ℤ)) (cfg : Config)
    (tc : List (ℤ × (ℚ × ℚ))) (sites : List (ℤ × List (String × ℚ)))
    (allOff : List (ℤ × List (ℚ × ℚ))) :
    List (ℤ × List (ℤ × (ℚ × ℚ))) × List (ℤ × List (ℚ × ℚ)) :=
  sites.foldl (actualSiteStep seqData cfg tc) ([], allOff)

/-- Outer step of the actual pass, one glass_key of offset_data. -/
def actualUnitStep (seqData : ℤ → Option (ℤ × ℤ)) (cfg : Config)
    (tc : List (ℤ × (ℚ × ℚ)))
    (acc : List (String × List (ℤ × List (ℤ × (ℚ × ℚ)))) × List (ℤ × List (ℚ × ℚ)))
    (gu : String × List (ℤ × List (String × ℚ))) :
    List (String × List (ℤ × List (ℤ × (ℚ × ℚ)))) × List (ℤ × List (ℚ × ℚ)) :=
  let r := actualUnit seqData cfg tc gu.2 acc.2
  (alInsert acc.1 gu.1 r.1, r.2)

/-- The actual pass: per-unit actual polygons and the accumulated
all_offsets map used by the mean pass. -/
def actualPass (seqData : ℤ → Option (ℤ × ℤ)) (cfg : Config)
    (tc : List (ℤ × (ℚ × ℚ))) (od : List (String × List (ℤ × List (String × ℚ)))) :
    List (String × List (ℤ × List (ℤ × (ℚ × ℚ)))) × List (ℤ × List (ℚ × ℚ)) :=
  od.foldl (actualUnitStep seqData cfg tc) ([], [])

/-- One site of the mean pass (mapping_visualizer.py lines 375-418): skip
unless the site resolves and has theory coordinates; otherwise the mean
point is theory placement + the arithmetic mean of the accumulated
offsets. -/
def meanStep (seqData : ℤ → Option (ℤ × ℤ)) (cfg : Config)
    (tc : List (ℤ × (ℚ × ℚ))) (mp : List (ℤ × List (ℤ × (ℚ × ℚ))))
    (so : ℤ × List (ℚ × ℚ)) : List (ℤ × List (ℤ × (ℚ × ℚ))) :=
  match seqData so.1 with
  | none => mp
  | some (shot, seq) =>
    match alGet tc so.1 with
    | none => mp
    | some (x, y) =>
      let avg : ℚ × ℚ :=
        if so.2 = [] then (0, 0)
        else ((so.2.map Prod.fst).sum / so.2.length, (so.2.map Prod.snd).sum / so.2.length)
      let p := placePoint cfg shot x y
      alInsert2 mp shot seq (p.1 + avg.1, p.2 + avg.2)

/-- The mean pass over the accumulated all_offsets map. -/
def meanPass (seqData : ℤ → Option (ℤ × ℤ)) (cfg : Config)
    (tc : List (ℤ × (ℚ × ℚ))) (allOff : List (ℤ × List (ℚ × ℚ))) :
    List (ℤ × List (ℤ × (ℚ × ℚ))) :=
  allOff.foldl (meanStep seqData cfg tc) []

/-- The geometry state owned by MappingVisualizer: theory polygons, actual
polygons, offset data and the mean polygon. -/
structure Geometry where
  polygons : List (ℤ × List (ℤ × (ℚ × ℚ)))
  actualPolygons : List (String × List (ℤ × List (ℤ × (ℚ × ℚ))))
  offsetData : List (String × List (ℤ × List (String × ℚ)))
  meanPolygon : List (ℤ × List (ℤ × (ℚ × ℚ)))
deriving DecidableEq

/-- Outcome of one process_data batch: either of the two abort status
messages, or a completed build. -/
inductive BatchStatus where
  | missingRequired (cols : List String)
  | missingParamCols
  | ok
deriving DecidableEq

/-- required_columns of process_data. -/
def requiredColumns : List String :=
  ["GLASS_ID", "GLASS_END_TIME", "SITE_NAME", "X", "Y"]

/-- process_data (mapping_visualizer.py lines 212-431; the column checks are
identical in mapping_matplotlib.py lines 363-376): abort on missing required
columns, abort when PARAM_NAME or PARAM_VALUE is absent, otherwise replace
the whole geometry with the result of the four passes.  On either abort the
previous geometry is returned untouched. -/
def process_data (seqData : ℤ → Option (ℤ × ℤ)) (cfg : Config) (st : Geometry)
    (df : DataFrame) : Geometry × BatchStatus :=
  let missing := requiredColumns.filter (fun c => decide (c ∉ df.columns))
  if missing ≠ [] then (st, .missingRequired missing)
  else if "PARAM_NAME" ∉ df.columns ∨ "PARAM_VALUE" ∉ df.columns then
    (st, .missingParamCols)
  else
    let tp := theoryPass seqData cfg df.rows
    let od := offsetPass df.rows
    let ap := actualPass seqData cfg tp.1 od
    (⟨tp.2, ap.1, od, meanPass seqData cfg tp.1 ap.2⟩, .ok)

end TPMapping

namespace TPMapping

/-- Claim C7: a dataset missing at least one required column aborts the
batch: the status names exactly the required columns absent from the
dataset (in required-column order) and the previously built geometry --
theory, actual, mean polygons and offset data -- is returned completely
unchanged. -/
theorem missing_columns_abort (seqData : ℤ → Option (ℤ × ℤ)) (cfg : Config)
    (st : Geometry) (df : DataFrame)
    (h : requiredColumns.filter (fun c => decide (c ∉ df.columns)) ≠ []) :
    process_data seqData cfg st df =
      (st, .missingRequired (requiredColumns.filter (fun c => decide (c ∉ df.columns)))) ∧
    ∀ c, c ∈ requiredColumns.filter (fun c => decide (c ∉ df.columns)) ↔
      (c ∈ requiredColumns ∧ c ∉ df.columns) := by
  constructor
  · unfold process_data
    rw [if_pos h]
  · intro c
    simp [List.mem_filter]

/-- Witness for claim C7: a dataset with every required column except X is
aborted with a message naming X, and a nonempty prior geometry survives. -/
theorem missing_columns_abort_witness :
    process_data (fun _ => none) ⟨1, 1, 0⟩ ⟨[(1, [(1, (0, 0))])], [], [], []⟩
        ⟨["GLASS_ID", "GLASS_END_TIME", "SITE_NAME", "Y", "PARAM_NAME", "PARAM_VALUE"], []⟩ =
      (⟨[(1, [(1, (0, 0))])], [], [], []⟩, .missingRequired ["X"]) ∧
    ("X" ∈ requiredColumns ∧
      "X" ∉ (["GLASS_ID", "GLASS_END_TIME", "SITE_NAME", "Y", "PARAM_NAME", "PARAM_VALUE"] : List String)) := by
  have h := missing_columns_abort (fun _ => none) ⟨1, 1, 0⟩ ⟨[(1, [(1, (0, 0))])], [], [], []⟩
    ⟨["GLASS_ID", "GLASS_END_TIME", "SITE_NAME", "Y", "PARAM_NAME", "PARAM_VALUE"], []⟩
    (by simp [requiredColumns])
  refine ⟨?_, ?_⟩
  · have h1 := h.1
    simpa [requiredColumns] using h1
  · exact ((h.2 "X").mp (by simp [requiredColumns]))

/-- Claim C10: a dataset that has all five required columns but lacks the
PARAM_NAME column or the PARAM_VALUE column is rejected as a whole: the
status message is reported and the prior geometry is retained, so no
geometry at all is built from the dataset's X/Y values. -/
theorem missing_param_columns_abort (seqData : ℤ → Option (ℤ × ℤ)) (cfg : Config)
    (st : Geometry) (df : DataFrame)
    (hreq : ∀ c ∈ requiredColumns, c ∈ df.columns)
    (hpar : "PARAM_NAME" ∉ df.columns ∨ "PARAM_VALUE" ∉ df.columns) :
    process_data seqData cfg st df = (st, .missingParamCols) := by
  unfold process_data
  have hm : requiredColumns.filter (fun c => decide (c ∉ df.columns)) = [] := by
    simp only [List.filter_eq_nil_iff, decide_eq_true_eq, not_not]
    exact hreq
  rw [if_neg (fun hcon => hcon hm), if_pos hpar]

/-- Witness for claim C10: required columns all present, PARAM_VALUE absent,
one well-formed coordinate row -- the batch is still rejected and the prior
geometry (here nonempty) is kept, no theory polygon is built from the row. -/
theorem missing_param_columns_abort_witness :
    process_data (fun _ => some (1, 1)) ⟨1, 1, 0⟩ ⟨[(2, [(2, (5, 5))])], [], [], []⟩
        ⟨["GLASS_ID", "GLASS_END_TIME", "SITE_NAME", "X", "Y", "PARAM_NAME"],
         [⟨"G1", "T1", some 1, some 1000, some 2000, none, none⟩]⟩ =
      (⟨[(2, [(2, (5, 5))])], [], [], []⟩, .missingParamCols) :=
  missing_param_columns_abort (fun _ => some (1, 1)) ⟨1, 1, 0⟩ ⟨[(2, [(2, (5, 5))])], [], [], []⟩
    ⟨["GLASS_ID", "GLASS_END_TIME", "SITE_NAME", "X", "Y", "PARAM_NAME"],
     [⟨"G1", "T1", some 1, some 1000, some 2000, none, none⟩]⟩
    (by intro c hc; fin_cases hc <;> simp)
    (by right; simp)

end TPMapping

namespace TPMapping

/-- Site registry of the end-to-end example of claim C4:
site 1 -> (shot 1, seq 1), site 2 -> (shot 1, seq 2). -/
def seqDataC4 : ℤ → Option (ℤ × ℤ) :=
  fun s => if s = 1 then some (1, 1) else if s = 2 then some (1, 2) else none

/-- Dataset of the end-to-end example of claim C4: the two coordinate
records and the two axis-offset parameter records for site 1 (values 0.5)
in unit ("G1","T1"). -/
def dfC4 : DataFrame :=
  ⟨["GLASS_ID", "GLASS_END_TIME", "SITE_NAME", "X", "Y", "PARAM_NAME", "PARAM_VALUE"],
   [⟨"G1", "T1", some 1, some 1000, some 2000, none, none⟩,
    ⟨"G1", "T1", some 2, some 3000, some 4000, none, none⟩,
    ⟨"G1", "T1", some 1, some 1000, some 2000, some "POS_X1", some (1/2)⟩,
    ⟨"G1", "T1", some 1, some 1000, some 2000, some "POS_Y1", some (1/2)⟩]⟩

/-- The end-to-end build of claim C4: design_scale = 1, offset_scale = 1,
shot_separation = 0, starting from the empty geometry. -/
def resC4 : Geometry × BatchStatus :=
  process_data seqDataC4 ⟨1, 1, 0⟩ ⟨[], [], [], []⟩ dfC4

/-- Claim C4: the build succeeds; the drawn theory polygon of shot 1 is the
closed ring [(1,2), (3,4), (1,2)]; and the actual polygon of unit "G1_T1"
holds the point (1.5, 2.5) at shot 1, seq 1. -/
theorem end_to_end_build :
    resC4.2 = .ok ∧
    redrawPolygonLine ((alGet resC4.1.polygons 1).getD []) =
      some [(1, 2), (3, 4), (1, 2)] ∧
    alGet2 ((alGet resC4.1.actualPolygons "G1_T1").getD []) 1 1 = some (3/2, 5/2) := by
  norm_num [resC4, dfC4, seqDataC4, process_data, theoryPass, theoryStep, offsetPass,
    offsetStep, actualPass, actualUnitStep, actualUnit, actualSiteStep, meanPass, meanStep,
    placePoint, truncQ, scaledOffset, alInsert, alInsert2, alGet, alGet2, requiredColumns,
    redrawPolygonLine, sortedPolyPoints, sortInts, insertAsc, closeRing,
    List.filterMap_cons, List.filterMap_nil]

end TPMapping

namespace TPMapping

/-- The scaled offsets contributed by one unit's site dict for a given
site: one entry per occurrence of the site (in a dict-built site list the
site occurs at most once). -/
def unitOffsets (cfg : Config) (site : ℤ) (sites : List (ℤ × List (String × ℚ))) :
    List (ℚ × ℚ) :=
  sites.filterMap (fun sp => if sp.1 = site then some (scaledOffset cfg sp.2) else none)

/-- All per-unit scaled offsets of one site across the offset data, in
unit-key order: the independent description of what all_offsets[site]
accumulates in the actual pass. -/
def collectedOffsets (cfg : Config) (site : ℤ) :
    List (String × List (ℤ × List (String × ℚ))) → List (ℚ × ℚ)
  | [] => []
  | gu :: rest => unitOffsets cfg site gu.2 ++ collectedOffsets cfg site rest

/-- Appending entries to an optional accumulated list: appending nothing
creates no entry (all_offsets[site] exists only once something was
appended to it). -/
def optConcat {X : Type} : Option (List X) → List X → Option (List X)
  | o, [] => o
  | o, l => some (o.getD [] ++ l)

theorem optConcat_push {X : Type} (o : Option (List X)) (a : X) (u : List X) :
    optConcat (some (o.getD [] ++ [a])) u = optConcat o (a :: u) := by
  cases u <;> cases o <;> simp [optConcat]

theorem optConcat_optConcat {X : Type} (o : Option (List X)) (u1 u2 : List X) :
    optConcat (optConcat o u1) u2 = optConcat o (u1 ++ u2) := by
  cases u1 with
  | nil => simp [optConcat]
  | cons a as =>
    cases u2 with
    | nil => simp [optConcat]
    | cons b bs => simp [optConcat]

/-- What the inner loop of the actual pass accumulates into
all_offsets[site], for a site that resolves in seq_data and has theory
coordinates: exactly the unit's scaled offsets for that site, appended in
order. -/
theorem actualUnit_allOff (seqData : ℤ → Option (ℤ × ℤ)) (cfg : Config)
    (tc : List (ℤ × (ℚ × ℚ))) (site shot seq : ℤ) (x y : ℚ)
    (hs : seqData site = some (shot, seq)) (ht : alGet tc site = some (x, y)) :
    ∀ (sites : List (ℤ × List (String × ℚ)))
      (acc : List (ℤ × List (ℤ × (ℚ × ℚ))) × List (ℤ × List (ℚ × ℚ))),
      alGet (sites.foldl (actualSiteStep seqData cfg tc) acc).2 site =
        optConcat (alGet acc.2 site) (unitOffsets cfg site sites)
  | [], acc => by simp [unitOffsets, optConcat]
  | sp :: rest, acc => by
    rw [List.foldl_cons]
    by_cases hsp : sp.1 = site
    · have hstep : actualSiteStep seqData cfg tc acc sp =
          (alInsert2 acc.1 shot seq
            ((placePoint cfg shot x y).1 + (scaledOffset cfg sp.2).1,
             (placePoint cfg shot x y).2 + (scaledOffset cfg sp.2).2),
           alInsert acc.2 site (((alGet acc.2 site).getD []) ++ [scaledOffset cfg sp.2])) := by
        unfold actualSiteStep
        rw [hsp, hs, ht]
      rw [hstep,
        actualUnit_allOff seqData cfg tc site shot seq x y hs ht rest _]
      have hunit : unitOffsets cfg site (sp :: rest) =
          scaledOffset cfg sp.2 :: unitOffsets cfg site rest := by
        simp [unitOffsets, List.filterMap_cons, hsp]
      rw [hunit]
      have hget : alGet
          (alInsert2 acc.1 shot seq
            ((placePoint cfg shot x y).1 + (scaledOffset cfg sp.2).1,
             (placePoint cfg shot x y).2 + (scaledOffset cfg sp.2).2),
           alInsert acc.2 site (((alGet acc.2 site).getD []) ++ [scaledOffset cfg sp.2])).2
          site = some (((alGet acc.2 site).getD []) ++ [scaledOffset cfg sp.2]) :=
        alGet_alInsert_same _ _ _
      rw [hget]
      exact optConcat_push _ _ _
    · have h2 : site ≠ sp.1 := fun hh => hsp hh.symm
      have hunit : unitOffsets cfg site (sp :: rest) = unitOffsets cfg site rest := by
        simp [unitOffsets, List.filterMap_cons, hsp]
      rw [hunit]
      rcases hq : seqData sp.1 with _ | ⟨sh, sq⟩
      · have hstep : actualSiteStep seqData cfg tc acc sp = acc := by
          unfold actualSiteStep
          rw [hq]
        rw [hstep]
        exact actualUnit_allOff seqData cfg tc site shot seq x y hs ht rest acc
      · rcases hg : alGet tc sp.1 with _ | ⟨xx, yy⟩
        · have hstep : actualSiteStep seqData cfg tc acc sp = acc := by
            unfold actualSiteStep
            rw [hq, hg]
          rw [hstep]
          exact actualUnit_allOff seqData cfg tc site shot seq x y hs ht rest acc
        · have hstep : actualSiteStep seqData cfg tc acc sp =
              (alInsert2 acc.1 sh sq
                ((placePoint cfg sh xx yy).1 + (scaledOffset cfg sp.2).1,
                 (placePoint cfg sh xx yy).2 + (scaledOffset cfg sp.2).2),
               alInsert acc.2 sp.1 (((alGet acc.2 sp.1).getD []) ++ [scaledOffset cfg sp.2])) := by
            unfold actualSiteStep
            rw [hq, hg]
          rw [hstep,
            actualUnit_allOff seqData cfg tc site shot seq x y hs ht rest _]
          have hget : alGet
              (alInsert2 acc.1 sh sq
                ((placePoint cfg sh xx yy).1 + (scaledOffset cfg sp.2).1,
                 (placePoint cfg sh xx yy).2 + (scaledOffset cfg sp.2).2),
               alInsert acc.2 sp.1 (((alGet acc.2 sp.1).getD []) ++ [scaledOffset cfg sp.2])).2
              site = alGet acc.2 site :=
            alGet_alInsert_ne _ _ _ _ h2
          rw [hget]

/-- What the whole actual pass accumulates into all_offsets[site]. -/
theorem actualPass_allOff (seqData : ℤ → Option (ℤ × ℤ)) (cfg : Config)
    (tc : List (ℤ × (ℚ × ℚ))) (site shot seq : ℤ) (x y : ℚ)
    (hs : seqData site = some (shot, seq)) (ht : alGet tc site = some (x, y)) :
    ∀ (od : List (String × List (ℤ × List (String × ℚ))))
      (acc : List (String × List (ℤ × List (ℤ × (ℚ × ℚ)))) × List (ℤ × List (ℚ × ℚ))),
      alGet (od.foldl (actualUnitStep seqData cfg tc) acc).2 site =
        optConcat (alGet acc.2 site) (collectedOffsets cfg site od)
  | [], acc => by simp [collectedOffsets, optConcat]
  | gu :: rest, acc => by
    rw [List.foldl_cons,
      actualPass_allOff seqData cfg tc site shot seq x y hs ht rest _]
    have h1 : alGet (actualUnitStep seqData cfg tc acc gu).2 site =
        optConcat (alGet acc.2 site) (unitOffsets cfg site gu.2) :=
      actualUnit_allOff seqData cfg tc site shot seq x y hs ht gu.2 ([], acc.2)
    rw [h1, optConcat_optConcat]
    rfl

/-- all_offsets[site] after the actual pass is exactly the collected
per-unit scaled offsets of the site, whenever that collection is
nonempty. -/
theorem actualPass_allOff_some (seqData : ℤ → Option (ℤ × ℤ)) (cfg : Config)
    (tc : List (ℤ × (ℚ × ℚ))) (site shot seq : ℤ) (x y : ℚ)
    (hs : seqData site = some (shot, seq)) (ht : alGet tc site = some (x, y))
    (od : List (String × List (ℤ × List (String × ℚ))))
    (hne : collectedOffsets cfg site od ≠ []) :
    alGet (actualPass seqData cfg tc od).2 site =
      some (collectedOffsets cfg site od) := by
  unfold actualPass
  rw [actualPass_allOff seqData cfg tc site shot seq x y hs ht od ([], [])]
  cases hc : collectedOffsets cfg site od with
  | nil => exact absurd hc hne
  | cons a as => simp [optConcat, alGet]

end TPMapping

namespace TPMapping

/-- The keys of an association list are pairwise distinct (true of every
list built by alInsert, i.e. of every modelled Python dict). -/
def keysNodup {K V : Type} (l : List (K × V)) : Prop :=
  (l.map Prod.fst).Nodup

theorem mem_keys_alInsert {K V : Type} [DecidableEq K]
    (l : List (K × V)) (k k' : K) (v : V) :
    k' ∈ (alInsert l k v).map Prod.fst ↔ k' ∈ l.map Prod.fst ∨ k' = k := by
  induction l with
  | nil => simp [alInsert]
  | cons e rest ih =>
    obtain ⟨ek, ev⟩ := e
    by_cases he : ek = k
    · rw [show alInsert ((ek, ev) :: rest) k v = (ek, v) :: rest from by simp [alInsert, he]]
      subst he
      simp only [List.map_cons, List.mem_cons]
      tauto
    · rw [show alInsert ((ek, ev) :: rest) k v = (ek, ev) :: alInsert rest k v from by simp [alInsert, he]]
      simp only [List.map_cons, List.mem_cons, ih]
      tauto

theorem keysNodup_alInsert {K V : Type} [DecidableEq K]
    (l : List (K × V)) (k : K) (v : V) (h : keysNodup l) :
    keysNodup (alInsert l k v) := by
  induction l with
  | nil => simp [keysNodup, alInsert]
  | cons e rest ih =>
    obtain ⟨ek, ev⟩ := e
    unfold keysNodup at h ⊢
    rw [List.map_cons, List.nodup_cons] at h
    by_cases he : ek = k
    · rw [show alInsert ((ek, ev) :: rest) k v = (ek, v) :: rest from by simp [alInsert, he]]
      rw [List.map_cons, List.nodup_cons]
      exact h
    · rw [show alInsert ((ek, ev) :: rest) k v = (ek, ev) :: alInsert rest k v from by simp [alInsert, he]]
      rw [List.map_cons, List.nodup_cons]
      refine ⟨?_, ih h.2⟩
      rw [mem_keys_alInsert]
      push_neg
      exact ⟨h.1, he⟩

theorem actualSiteStep_keysNodup (seqData : ℤ → Option (ℤ × ℤ)) (cfg : Config)
    (tc : List (ℤ × (ℚ × ℚ)))
    (acc : List (ℤ × List (ℤ × (ℚ × ℚ))) × List (ℤ × List (ℚ × ℚ)))
    (sp : ℤ × List (String × ℚ)) (h : keysNodup acc.2) :
    keysNodup (actualSiteStep seqData cfg tc acc sp).2 := by
  unfold actualSiteStep
  rcases hq : seqData sp.1 with _ | ⟨sh, sq⟩
  · exact h
  · rcases hg : alGet tc sp.1 with _ | ⟨xx, yy⟩
    · exact h
    · exact keysNodup_alInsert _ _ _ h

theorem actualUnit_keysNodup (seqData : ℤ → Option (ℤ × ℤ)) (cfg : Config)
    (tc : List (ℤ × (ℚ × ℚ))) :
    ∀ (sites : List (ℤ × List (String × ℚ)))
      (acc : List (ℤ × List (ℤ × (ℚ × ℚ))) × List (ℤ × List (ℚ × ℚ))),
      keysNodup acc.2 →
      keysNodup ((sites.foldl (actualSiteStep seqData cfg tc) acc).2)
  | [], acc, h => h
  | sp :: rest, acc, h => by
    rw [List.foldl_cons]
    exact actualUnit_keysNodup seqData cfg tc rest _
      (actualSiteStep_keysNodup seqData cfg tc acc sp h)

theorem actualPass_keysNodup (seqData : ℤ → Option (ℤ × ℤ)) (cfg : Config)
    (tc : List (ℤ × (ℚ × ℚ))) :
    ∀ (od : List (String × List (ℤ × List (String × ℚ))))
      (acc : List (String × List (ℤ × List (ℤ × (ℚ × ℚ)))) × List (ℤ × List (ℚ × ℚ))),
      keysNodup acc.2 →
      keysNodup ((od.foldl (actualUnitStep seqData cfg tc) acc).2)
  | [], acc, h => h
  | gu :: rest, acc, h => by
    rw [List.foldl_cons]
    exact actualPass_keysNodup seqData cfg tc rest _
      (actualUnit_keysNodup seqData cfg tc gu.2 ([], acc.2) h)

/-- Splitting an association list at the first occurrence of a key. -/
theorem alGet_split {K V : Type} [DecidableEq K] :
    ∀ (l : List (K × V)) (k : K) (v : V), alGet l k = some v →
      ∃ l1 l2, l = l1 ++ (k, v) :: l2 ∧ ∀ e ∈ l1, e.1 ≠ k
  | [], k, v, h => by simp [alGet] at h
  | e :: rest, k, v, h => by
    by_cases he : e.1 = k
    · refine ⟨[], rest, ?_, by simp⟩
      unfold alGet at h
      rw [if_pos he] at h
      obtain rfl : e.2 = v := Option.some.inj h
      simp [← he]
    · unfold alGet at h
      rw [if_neg he] at h
      obtain ⟨l1, l2, rfl, hfree⟩ := alGet_split rest k v h
      exact ⟨e :: l1, l2, rfl, by
        intro f hf
        rcases List.mem_cons.mp hf with rfl | hf'
        · exact he
        · exact hfree f hf'⟩

end TPMapping

namespace TPMapping

/-- A mean-pass step over an entry whose site cannot map to the target
(shot, seq) leaves the target mean point unchanged. -/
theorem meanStep_preserve (seqData : ℤ → Option (ℤ × ℤ)) (cfg : Config)
    (tc : List (ℤ × (ℚ × ℚ))) (site shot seq : ℤ)
    (hu : ∀ s', s' ≠ site → seqData s' ≠ some (shot, seq))
    (mp : List (ℤ × List (ℤ × (ℚ × ℚ)))) (so : ℤ × List (ℚ × ℚ))
    (hso : so.1 ≠ site) :
    alGet2 (meanStep seqData cfg tc mp so) shot seq = alGet2 mp shot seq := by
  unfold meanStep
  rcases hq : seqData so.1 with _ | ⟨sh, sq⟩
  · rfl
  · rcases hg : alGet tc so.1 with _ | ⟨xx, yy⟩
    · rfl
    · apply alGet2_alInsert2_ne
      intro hcon
      have h1 : sh = shot := congrArg Prod.fst hcon
      have h2 : sq = seq := congrArg Prod.snd hcon
      subst h1
      subst h2
      exact hu so.1 hso hq

/-- Folding the mean pass over entries none of which is the target site
leaves the target mean point unchanged. -/
theorem meanFold_preserve (seqData : ℤ → Option (ℤ × ℤ)) (cfg : Config)
    (tc : List (ℤ × (ℚ × ℚ))) (site shot seq : ℤ)
    (hu : ∀ s', s' ≠ site → seqData s' ≠ some (shot, seq)) :
    ∀ (L : List (ℤ × List (ℚ × ℚ))) (mp : List (ℤ × List (ℤ × (ℚ × ℚ)))),
      (∀ e ∈ L, e.1 ≠ site) →
      alGet2 (L.foldl (meanStep seqData cfg tc) mp) shot seq = alGet2 mp shot seq
  | [], _, _ => rfl
  | e :: rest, mp, hfree => by
    rw [List.foldl_cons,
      meanFold_preserve seqData cfg tc site shot seq hu rest _
        (fun f hf => hfree f (List.mem_cons_of_mem _ hf))]
    exact meanStep_preserve seqData cfg tc site shot seq hu mp e
      (hfree e (List.mem_cons_self _ _))

/-- The mean-pass step at the target site itself: the mean point is the
theory placement plus the arithmetic mean of the accumulated offsets. -/
theorem meanStep_at_site (seqData : ℤ → Option (ℤ × ℤ)) (cfg : Config)
    (tc : List (ℤ × (ℚ × ℚ))) (site shot seq : ℤ) (x y : ℚ)
    (offs : List (ℚ × ℚ))
    (hs : seqData site = some (shot, seq)) (ht : alGet tc site = some (x, y))
    (hne : offs ≠ []) (mp : List (ℤ × List (ℤ × (ℚ × ℚ)))) :
    alGet2 (meanStep seqData cfg tc mp (site, offs)) shot seq =
      some ((placePoint cfg shot x y).1 + (offs.map Prod.fst).sum / (offs.length : ℚ),
            (placePoint cfg shot x y).2 + (offs.map Prod.snd).sum / (offs.length : ℚ)) := by
  have h1 : meanStep seqData cfg tc mp (site, offs) =
      alInsert2 mp shot seq
        ((placePoint cfg shot x y).1 + (offs.map Prod.fst).sum / (offs.length : ℚ),
         (placePoint cfg shot x y).2 + (offs.map Prod.snd).sum / (offs.length : ℚ)) := by
    unfold meanStep
    dsimp only
    rw [hs, ht, if_neg hne]
  rw [h1]
  exact alGet2_alInsert2_same _ _ _ _

/-- Claim C3: for every site that resolves in the registry, has theory
coordinates, and appears with offsets in at least one unit (and whose
(shot, seq) address is not shared with another site, as the data model
requires), the mean point stored at (shot, seq) is the theory placement
plus, per axis, the exact arithmetic mean over all unit keys containing
the site of the per-unit scaled offsets that the actual pass uses for that
site's actual points. -/
theorem mean_point_is_average_offset
    (seqData : ℤ → Option (ℤ × ℤ)) (cfg : Config) (tc : List (ℤ × (ℚ × ℚ)))
    (od : List (String × List (ℤ × List (String × ℚ))))
    (site shot seq : ℤ) (x y : ℚ)
    (hs : seqData site = some (shot, seq))
    (ht : alGet tc site = some (x, y))
    (hu : ∀ s', s' ≠ site → seqData s' ≠ some (shot, seq))
    (hne : collectedOffsets cfg site od ≠ []) :
    alGet2 (meanPass seqData cfg tc (actualPass seqData cfg tc od).2) shot seq =
      some ((placePoint cfg shot x y).1 +
              ((collectedOffsets cfg site od).map Prod.fst).sum /
                ((collectedOffsets cfg site od).length : ℚ),
            (placePoint cfg shot x y).2 +
              ((collectedOffsets cfg site od).map Prod.snd).sum /
                ((collectedOffsets cfg site od).length : ℚ)) := by
  have hAO : alGet (actualPass seqData cfg tc od).2 site =
      some (collectedOffsets cfg site od) :=
    actualPass_allOff_some seqData cfg tc site shot seq x y hs ht od hne
  have hnd : keysNodup (actualPass seqData cfg tc od).2 :=
    actualPass_keysNodup seqData cfg tc od ([], []) (by simp [keysNodup])
  obtain ⟨l1, l2, hsplit, hfree1⟩ := alGet_split _ _ _ hAO
  have hfree2 : ∀ e ∈ l2, e.1 ≠ site := by
    rw [hsplit] at hnd
    unfold keysNodup at hnd
    rw [List.map_append, List.map_cons] at hnd
    have h3 : (site :: l2.map Prod.fst).Nodup := hnd.of_append_right
    have h4 : site ∉ l2.map Prod.fst := (List.nodup_cons.mp h3).1
    intro e he hcon
    exact h4 (hcon ▸ List.mem_map_of_mem Prod.fst he)
  unfold meanPass
  rw [hsplit, List.foldl_append, List.foldl_cons,
    meanFold_preserve seqData cfg tc site shot seq hu l2 _ hfree2]
  exact meanStep_at_site seqData cfg tc site shot seq x y _ hs ht hne _

/-- Witness for claim C3: two units, site 1 with scaled offsets (1,2) and
(3,0), theory coordinates (1000,2000), design_scale = 1, offset_scale = 1,
shot_separation = 0 -- the mean point is (1,2) + ((1+3)/2, (2+0)/2) = (3,3). -/
theorem mean_point_is_average_offset_witness :
    alGet2 (meanPass (fun s => if s = 1 then some ((1 : ℤ), (1 : ℤ)) else none) ⟨1, 1, 0⟩
        [((1 : ℤ), ((1000 : ℚ), (2000 : ℚ)))]
        (actualPass (fun s => if s = 1 then some ((1 : ℤ), (1 : ℤ)) else none) ⟨1, 1, 0⟩
          [((1 : ℤ), ((1000 : ℚ), (2000 : ℚ)))]
          [("G1_T1", [((1 : ℤ), [("POS_X1", (1 : ℚ)), ("POS_Y1", (2 : ℚ))])]),
           ("G2_T2", [((1 : ℤ), [("POS_X1", (3 : ℚ))])])]).2) 1 1 =
      some (3, 3) := by
  have h := mean_point_is_average_offset
    (fun s => if s = 1 then some ((1 : ℤ), (1 : ℤ)) else none) ⟨1, 1, 0⟩
    [((1 : ℤ), ((1000 : ℚ), (2000 : ℚ)))]
    [("G1_T1", [((1 : ℤ), [("POS_X1", (1 : ℚ)), ("POS_Y1", (2 : ℚ))])]),
     ("G2_T2", [((1 : ℤ), [("POS_X1", (3 : ℚ))])])]
    1 1 1 1000 2000
    (by simp)
    (by simp [alGet])
    (by
      intro s' hs' hcon
      simp [hs'] at hcon)
    (by simp [collectedOffsets, unitOffsets, scaledOffset, alGet])
  rw [h]
  simp [collectedOffsets, unitOffsets, scaledOffset, alGet, List.filterMap_cons]
  norm_num [placePoint, truncQ]

end TPMapping

namespace TPMapping

/-- Registry assignment self.seq_data[site] = (shot, seq). -/
def updateReg (d : ℤ → Option (ℤ × ℤ)) (site : ℤ) (v : ℤ × ℤ) :
    ℤ → Option (ℤ × ℤ) :=
  fun s => if s = site then some v else d s

/-- The loop of load_seq_data (mapping_visualizer.py lines 58-70, and
identically mapping_matplotlib.py lines 264-276).  A row is some (site,
shot, seq) when its three int() parses succeed and none when one of them
raises.  The whole loop body sits inside a single try/except, so the first
raising row ends the entire loop: rows before it are kept, rows after it
are never read, and the caught exception only prints a warning. -/
def loadRows (d : ℤ → Option (ℤ × ℤ)) :
    List (Option (ℤ × ℤ × ℤ)) → (ℤ → Option (ℤ × ℤ))
  | [] => d
  | none :: _ => d
  | some (site, shot, seq) :: rest => loadRows (updateReg d site (shot, seq)) rest

/-- load_seq_data starting from the empty registry. -/
def load_seq_data (rows : List (Option (ℤ × ℤ × ℤ))) : ℤ → Option (ℤ × ℤ) :=
  loadRows (fun _ => none) rows

/-- Modelled from the spec: section 4.1 SiteRegistry prescribes per-row
recoverable parsing -- a malformed row is skipped with a warning and
loading continues with the remaining rows.  For comparison with the
code's load_seq_data. -/
def load_seq_data_spec (rows : List (Option (ℤ × ℤ × ℤ))) : ℤ → Option (ℤ × ℤ) :=
  rows.foldl
    (fun d r =>
      match r with
      | none => d
      | some (site, shot, seq) => updateReg d site (shot, seq))
    (fun _ => none)

end TPMapping

namespace TPMapping

/-- Claim C6 (counterexample): loading rows [(1,1,1), malformed, (2,1,2)],
the well-formed row after the malformed one never enters the registry
(site 2 looks up to none), though the spec's per-row model keeps it; the
row before the malformed one survives.  Loading is therefore not
row-independent: one bad row discards every later row. -/
theorem load_seq_data_counterexample :
    load_seq_data [some (1, 1, 1), none, some (2, 1, 2)] 2 = none ∧
    load_seq_data [some (1, 1, 1), none, some (2, 1, 2)] 1 = some (1, 1) ∧
    load_seq_data_spec [some (1, 1, 1), none, some (2, 1, 2)] 2 = some (1, 2) := by
  refine ⟨?_, ?_, ?_⟩ <;> decide

/-- Claim C6 (amended): the registry load is interrupted by the first
malformed row: for every prefix of well-formed rows, a malformed row and
arbitrary later rows, the resulting registry equals the registry of the
prefix alone.  Rows before the bad row are kept and the exception is
caught (the program continues with that partial registry), but no row
after the malformed one is processed. -/
theorem load_stops_at_first_malformed (pre : List (ℤ × ℤ × ℤ))
    (post : List (Option (ℤ × ℤ × ℤ))) :
    load_seq_data (pre.map some ++ none :: post) = load_seq_data (pre.map some) := by
  unfold load_seq_data
  have aux : ∀ (l : List (ℤ × ℤ × ℤ)) (d : ℤ → Option (ℤ × ℤ)),
      loadRows d (l.map some ++ none :: post) = loadRows d (l.map some) := by
    intro l
    induction l with
    | nil => intro d; rfl
    | cons p rest ih =>
      intro d
      obtain ⟨s, sh, sq⟩ := p
      simp only [List.map_cons, List.cons_append, loadRows]
      exact ih _
  exact aux pre _

end TPMapping

namespace TPMapping

/-- The axes view rectangle (the get_xlim/get_ylim state of the canvas). -/
structure ViewRect where
  xMin : ℚ
  xMax : ℚ
  yMin : ℚ
  yMax : ℚ
deriving DecidableEq

/-- MatplotlibCanvas.zoom (mapping_visualizer.py lines 733-752): divide
the view ranges by the factor, keeping the center fixed. -/
def zoom (v : ViewRect) (factor : ℚ) : ViewRect :=
  let xc := (v.xMin + v.xMax) / 2
  let yc := (v.yMin + v.yMax) / 2
  let xr := (v.xMax - v.xMin) / factor
  let yr := (v.yMax - v.yMin) / factor
  ⟨xc - xr / 2, xc + xr / 2, yc - yr / 2, yc + yr / 2⟩

/-- MatplotlibCanvas.on_scroll (mapping_visualizer.py lines 800-833):
divide the ranges by 1.1 (scroll up) or 1/1.1 (scroll down), recomputing
the limits so the cursor's relative position is preserved. -/
def on_scroll (v : ViewRect) (up : Bool) (xd yd : ℚ) : ViewRect :=
  let factor : ℚ := if up then 11 / 10 else 10 / 11
  let xr := v.xMax - v.xMin
  let yr := v.yMax - v.yMin
  let xRel := (xd - v.xMin) / xr
  let yRel := (yd - v.yMin) / yr
  let nxr := xr / factor
  let nyr := yr / factor
  ⟨xd - xRel * nxr, xd + (1 - xRel) * nxr, yd - yRel * nyr, yd + (1 - yRel) * nyr⟩

/-- The data point shown at a relative position of the axes rectangle:
with the axes box fixed on screen a display pixel is a fixed relative
position, and the data coordinate there is min + rel * range per axis. -/
def dataAt (v : ViewRect) (r : ℚ × ℚ) : ℚ × ℚ :=
  (v.xMin + r.1 * (v.xMax - v.xMin), v.yMin + r.2 * (v.yMax - v.yMin))

/-- The relative axes position showing a given data point. -/
def relOf (v : ViewRect) (p : ℚ × ℚ) : ℚ × ℚ :=
  ((p.1 - v.xMin) / (v.xMax - v.xMin), (p.2 - v.yMin) / (v.yMax - v.yMin))

end TPMapping

namespace TPMapping

/-- Claim C8: zooming is anchor-invariant.  In a nondegenerate view the
anchor's relative position shows exactly the anchor's data coordinate; for
the scroll-wheel zoom (either direction) the cursor's relative position
shows the same data coordinate after the zoom; and for the discrete
zoom-in/zoom-out (zoom with any positive factor) the viewport center shows
the same data coordinate after the zoom. -/
theorem zoom_anchor_invariant (v : ViewRect) (up : Bool) (a : ℚ × ℚ) (f : ℚ)
    (hx : v.xMin ≠ v.xMax) (hy : v.yMin ≠ v.yMax) (_hf : 0 < f) :
    dataAt v (relOf v a) = a ∧
    dataAt (on_scroll v up a.1 a.2) (relOf v a) = a ∧
    dataAt (zoom v f) (1/2, 1/2) = dataAt v (1/2, 1/2) := by
  have hx' : v.xMax - v.xMin ≠ 0 := sub_ne_zero.mpr (Ne.symm hx)
  have hy' : v.yMax - v.yMin ≠ 0 := sub_ne_zero.mpr (Ne.symm hy)
  refine ⟨?_, ?_, ?_⟩
  · simp only [dataAt, relOf, Prod.ext_iff]
    constructor
    · field_simp
    · field_simp
  · simp only [dataAt, relOf, on_scroll, Prod.ext_iff]
    constructor
    · ring
    · ring
  · simp only [dataAt, zoom, Prod.ext_iff]
    constructor
    · ring
    · ring

/-- Witness for claim C8 on a concrete view, cursor anchor (3,4) and
discrete factor 2. -/
theorem zoom_anchor_invariant_witness :
    dataAt ⟨0, 10, 0, 10⟩ (relOf ⟨0, 10, 0, 10⟩ (3, 4)) = (3, 4) ∧
    dataAt (on_scroll ⟨0, 10, 0, 10⟩ true 3 4) (relOf ⟨0, 10, 0, 10⟩ (3, 4)) = (3, 4) ∧
    dataAt (zoom ⟨0, 10, 0, 10⟩ 2) (1/2, 1/2) = dataAt ⟨0, 10, 0, 10⟩ (1/2, 1/2) :=
  zoom_anchor_invariant ⟨0, 10, 0, 10⟩ true (3, 4) 2 (by norm_num) (by norm_num)
    (by norm_num)

end TPMapping

namespace TPMapping

/-- Metadata of one plotted point, as collected in point_metadata:
(x, y, is_theory, shot, seq, glass_key). -/
structure PointMeta where
  px : ℚ
  py : ℚ
  isTheory : Bool
  shot : ℤ
  seq : ℤ
  glassKey : Option String
deriving DecidableEq

/-- Squared euclidean distance in data space.  The source compares
euclidean (square-root) distances against the constant 0.5; square root is
strictly monotone on nonnegative values, so comparing squared distances
against 0.5 squared is the same test and keeps every quantity rational. -/
def distSq (p q : ℚ × ℚ) : ℚ :=
  (p.1 - q.1) ^ 2 + (p.2 - q.2) ^ 2

/-- One step of the nearest-point scan: keep the first strictly closer
point. -/
def nearStep (q : ℚ × ℚ) (acc : Option (PointMeta × ℚ)) (m : PointMeta) :
    Option (PointMeta × ℚ) :=
  match acc with
  | none => some (m, distSq (m.px, m.py) q)
  | some (_, best) =>
    if distSq (m.px, m.py) q < best then some (m, distSq (m.px, m.py) q) else acc

/-- Nearest-point query over point_metadata.  This scan is simultaneously
the semantics of the KDTree.query call with k = 1 of check_hover
(mapping_visualizer.py line 890; the tree returns the nearest point, ties
broken deterministically by input order) and of check_hover's brute-force
fallback loop (lines 903-917); distances are squared (see distSq). -/
def nearestQ (pts : List PointMeta) (q : ℚ × ℚ) : Option (PointMeta × ℚ) :=
  pts.foldl (nearStep q) none

/-- check_hover's decision (mapping_visualizer.py lines 860-920): empty
point_metadata means no hit (early return); otherwise the nearest point's
metadata is returned exactly when its distance is strictly below the fixed
data-space distance_threshold = 0.5 (squared: 1/4). -/
def check_hover (pts : List PointMeta) (q : ℚ × ℚ) : Option PointMeta :=
  if pts = [] then none
  else
    match nearestQ pts q with
    | none => none
    | some (m, d2) => if d2 < (1 / 2 : ℚ) ^ 2 then some m else none

/-- Modelled from the spec's words (PickQuery, spec section 4.5, and claim
C5): convert threshold_px to the data-space radius threshold_px / scale and
return the nearest metadata exactly when distance ≤ threshold_data
(squared on both sides).  For comparison with the code's check_hover. -/
def pick_spec (pts : List PointMeta) (q : ℚ × ℚ) (thresholdPx scale : ℚ) :
    Option PointMeta :=
  match nearestQ pts q with
  | none => none
  | some (m, d2) => if d2 ≤ (thresholdPx / scale) ^ 2 then some m else none

/-- The nearest scan started from a candidate returns a best point: no
scanned point is closer, the candidate is never beaten by a farther point,
and the result is the candidate or a scanned point with its own distance. -/
theorem nearestQ_aux (q : ℚ × ℚ) :
    ∀ (pts : List PointMeta) (m0 : PointMeta) (d0 : ℚ),
      ∃ m d, pts.foldl (nearStep q) (some (m0, d0)) = some (m, d) ∧
        d ≤ d0 ∧ (∀ m' ∈ pts, d ≤ distSq (m'.px, m'.py) q) ∧
        ((m, d) = (m0, d0) ∨ (m ∈ pts ∧ d = distSq (m.px, m.py) q))
  | [], m0, d0 => ⟨m0, d0, rfl, le_refl _, by simp, Or.inl rfl⟩
  | m1 :: rest, m0, d0 => by
    rw [List.foldl_cons]
    by_cases hlt : distSq (m1.px, m1.py) q < d0
    · rw [show nearStep q (some (m0, d0)) m1 = some (m1, distSq (m1.px, m1.py) q) from by
        show (if distSq (m1.px, m1.py) q < d0 then some (m1, distSq (m1.px, m1.py) q)
            else some (m0, d0)) = some (m1, distSq (m1.px, m1.py) q)
        rw [if_pos hlt]]
      obtain ⟨m, d, heq, hle, hmin, hcase⟩ := nearestQ_aux q rest m1 (distSq (m1.px, m1.py) q)
      refine ⟨m, d, heq, le_trans hle (le_of_lt hlt), ?_, ?_⟩
      · intro m' hm'
        rcases List.mem_cons.mp hm' with rfl | hm'
        · exact hle
        · exact hmin m' hm'
      · rcases hcase with hc | hc
        · refine Or.inr ⟨?_, ?_⟩
          · rw [show m = m1 from congrArg Prod.fst hc]
            exact List.mem_cons_self _ _
          · rw [show m = m1 from congrArg Prod.fst hc]
            exact congrArg Prod.snd hc
        · exact Or.inr ⟨List.mem_cons_of_mem _ hc.1, hc.2⟩
    · rw [show nearStep q (some (m0, d0)) m1 = some (m0, d0) from by
        show (if distSq (m1.px, m1.py) q < d0 then some (m1, distSq (m1.px, m1.py) q)
            else some (m0, d0)) = some (m0, d0)
        rw [if_neg hlt]]
      obtain ⟨m, d, heq, hle, hmin, hcase⟩ := nearestQ_aux q rest m0 d0
      refine ⟨m, d, heq, hle, ?_, ?_⟩
      · intro m' hm'
        rcases List.mem_cons.mp hm' with rfl | hm'
        · exact le_trans hle (le_of_not_lt hlt)
        · exact hmin m' hm'
      · rcases hcase with hc | hc
        · exact Or.inl hc
        · exact Or.inr ⟨List.mem_cons_of_mem _ hc.1, hc.2⟩

/-- On a nonempty point list the nearest query returns a member whose
recorded distance is its own and is minimal over the list. -/
theorem nearestQ_spec (pts : List PointMeta) (q : ℚ × ℚ) (h : pts ≠ []) :
    ∃ m d, nearestQ pts q = some (m, d) ∧ m ∈ pts ∧ d = distSq (m.px, m.py) q ∧
      ∀ m' ∈ pts, d ≤ distSq (m'.px, m'.py) q := by
  cases pts with
  | nil => exact absurd rfl h
  | cons m1 rest =>
    obtain ⟨m, d, heq, hle, hmin, hcase⟩ :=
      nearestQ_aux q rest m1 (distSq (m1.px, m1.py) q)
    refine ⟨m, d, heq, ?_, ?_, ?_⟩
    · rcases hcase with hc | hc
      · rw [show m = m1 from congrArg Prod.fst hc]
        exact List.mem_cons_self _ _
      · exact List.mem_cons_of_mem _ hc.1
    · rcases hcase with hc | hc
      · rw [show m = m1 from congrArg Prod.fst hc]
        exact congrArg Prod.snd hc
      · exact hc.2
    · intro m' hm'
      rcases List.mem_cons.mp hm' with rfl | hm'
      · exact hle
      · exact hmin m' hm'

end TPMapping

namespace TPMapping

/-- Claim C9: with zero points every query returns none (check_hover
returns early on empty point_metadata), and with exactly one point the
nearest query returns that single point together with its distance.  Both
nearestQ and check_hover are total Lean functions, so neither degenerate
case can raise. -/
theorem nearest_degenerate (q : ℚ × ℚ) (m : PointMeta) :
    nearestQ [] q = none ∧
    nearestQ [m] q = some (m, distSq (m.px, m.py) q) ∧
    check_hover [] q = none := by
  refine ⟨rfl, rfl, ?_⟩
  simp [check_hover]

/-- Claim C5 (counterexample): a single point at data-space distance
exactly 0.5 from the query.  The spec's pick with threshold_px = 0.5 and
scale = 1 (threshold_data = 0.5) returns the point, since distance ≤
threshold_data; check_hover returns none: its test is strict (<) against
the fixed data-space constant 0.5 and no scale is consulted anywhere. -/
theorem check_hover_threshold_counterexample :
    distSq ((1 / 2 : ℚ), 0) (0, 0) = (1 / 2 : ℚ) ^ 2 ∧
    check_hover [⟨1 / 2, 0, true, 1, 1, none⟩] (0, 0) = none ∧
    pick_spec [⟨1 / 2, 0, true, 1, 1, none⟩] (0, 0) (1 / 2) 1 =
      some ⟨1 / 2, 0, true, 1, 1, none⟩ := by
  refine ⟨by norm_num [distSq], ?_, ?_⟩
  · norm_num [check_hover, nearestQ, nearStep, distSq]
  · norm_num [pick_spec, nearestQ, nearStep, distSq]

/-- Claim C5 (amended): check_hover performs no pixel-to-data conversion
and consults no scale; it uses the fixed data-space threshold 0.5 with a
strict comparison.  Whenever it returns a metadata m, m is a plotted point
at squared distance strictly below (1/2)^2 from the query and no plotted
point is closer; whenever it returns none, every plotted point (if any) is
at squared distance at least (1/2)^2. -/
theorem check_hover_nearest (pts : List PointMeta) (q : ℚ × ℚ) :
    (∀ m, check_hover pts q = some m →
      m ∈ pts ∧ distSq (m.px, m.py) q < (1 / 2 : ℚ) ^ 2 ∧
      ∀ m' ∈ pts, distSq (m.px, m.py) q ≤ distSq (m'.px, m'.py) q) ∧
    (check_hover pts q = none →
      ∀ m' ∈ pts, (1 / 2 : ℚ) ^ 2 ≤ distSq (m'.px, m'.py) q) := by
  by_cases hp : pts = []
  · subst hp
    constructor
    · intro m hm
      exact absurd hm (by simp [check_hover])
    · intro _ m' hm'
      simp at hm'
  · obtain ⟨m0, d0, heq, hmem, hd, hmin⟩ := nearestQ_spec pts q hp
    have hch : check_hover pts q =
        if d0 < (1 / 2 : ℚ) ^ 2 then some m0 else none := by
      unfold check_hover
      rw [if_neg hp, heq]
    constructor
    · intro m hm
      rw [hch] at hm
      by_cases hlt : d0 < (1 / 2 : ℚ) ^ 2
      · rw [if_pos hlt] at hm
        obtain rfl : m0 = m := Option.some.inj hm
        rw [← hd]
        exact ⟨hmem, hlt, hmin⟩
      · rw [if_neg hlt] at hm
        exact Option.noConfusion hm
    · intro hm m' hm'
      rw [hch] at hm
      by_cases hlt : d0 < (1 / 2 : ℚ) ^ 2
      · rw [if_pos hlt] at hm
        exact Option.noConfusion hm
      · exact le_trans (le_of_not_lt hlt) (hmin m' hm')

/-- Witness for the amended claim C5 at a concrete hit: a single point at
the query itself is returned and is trivially nearest. -/
theorem check_hover_nearest_witness :
    (⟨0, 0, true, 1, 1, none⟩ : PointMeta) ∈ [(⟨0, 0, true, 1, 1, none⟩ : PointMeta)] ∧
    distSq (((⟨0, 0, true, 1, 1, none⟩ : PointMeta)).px,
        ((⟨0, 0, true, 1, 1, none⟩ : PointMeta)).py) (0, 0) < (1 / 2 : ℚ) ^ 2 ∧
    ∀ m' ∈ [(⟨0, 0, true, 1, 1, none⟩ : PointMeta)],
      distSq (((⟨0, 0, true, 1, 1, none⟩ : PointMeta)).px,
          ((⟨0, 0, true, 1, 1, none⟩ : PointMeta)).py) (0, 0) ≤
        distSq (m'.px, m'.py) (0, 0) :=
  (check_hover_nearest [⟨0, 0, true, 1, 1, none⟩] (0, 0)).1 ⟨0, 0, true, 1, 1, none⟩
    (by norm_num [check_hover, nearestQ, nearStep, distSq])

end TPMapping
